import Mathlib

/-!
Shallow embedding of `src/i2c_mock.rs` from the `ht16k33` crate: a mock I2C
device emulating the HT16K33 display RAM (a fixed array of `ROWS_SIZE` bytes)
with auto-increment and wrap-around addressing.

Conventions of the embedding:
* Bytes are `Nat` (the claims do not depend on the 8-bit bound).
* The fixed-size Rust array `data_values : [u8; ROWS_SIZE]` is a `List Nat`;
  theorems carry the hypothesis that its length is `ROWS_SIZE`, which the Rust
  type enforces.
* Rust panics (out-of-bounds indexing, `todo!()`) are modelled as
  `Except.error` of a `MockPanic` value.  The source never constructs its
  `I2cMockError` value (every `Result` it builds is `Ok`), so panics are the
  only failure channel of the model; an `Except.error` therefore always means
  "the Rust code panics here", never "the Rust code returns `Err`".
-/

namespace HT16K33

/-- Modelled from the spec: `ROWS_SIZE`, the compile-time constant giving the
number of addressable display-RAM rows (`constants.rs` is not among the given
sources; the spec's concrete scenarios fix `ROWS_SIZE = 16`). -/
def ROWS_SIZE : Nat := 16

/-- Modelled from the spec: `DisplayDataAddress::ROW_0.bits()`, the base
display-data command byte, "the well-known encoding for address = 0"
(`types.rs` is not among the given sources).  Row 0 is address 0, and the
offset bits are OR-ed onto the base, so the base has value 0. -/
def ROW_0_bits : Nat := 0

/-- The ways the Rust code of the mock can panic: a slice/array index out of
bounds, or reaching a `todo!()`. -/
inductive MockPanic where
  | indexOutOfBounds
  | todoUnimplemented
  deriving DecidableEq, Repr

/-- The mock I2C state: the display RAM (`data_values : [u8; ROWS_SIZE]`). -/
structure I2cMock where
  data_values : List Nat
  deriving DecidableEq, Repr

/-- `I2cMock::new`: display RAM initialized to all zeros. -/
def I2cMock.new : I2cMock :=
  ⟨List.replicate ROWS_SIZE 0⟩

/-- The `for` loop of `I2cMock::write`: store each payload byte at the current
offset, then advance the offset by 1 modulo `data_values.len()`.  The indexing
`self.data_values[data_offset]` panics when the offset is out of bounds, which
happens exactly when the initial decoded offset is `≥ ROWS_SIZE` (all later
offsets are reduced modulo the length). -/
def writeLoop (ram : List Nat) (off : Nat) : List Nat → Except MockPanic (List Nat)
  | [] => Except.ok ram
  | v :: rest =>
    if off < ram.length then
      writeLoop (ram.set off v) ((off + 1) % (ram.set off v).length) rest
    else
      Except.error MockPanic.indexOutOfBounds

/-- The `for` loop of `I2cMock::write_read`: fill each of the `k` positions of
the caller's buffer from the current offset, then advance the offset by 1
modulo `data_values.len()`.  The buffer is represented by its length `k` on
the way in and by the produced list on the way out. -/
def readLoop (ram : List Nat) (off : Nat) : Nat → Except MockPanic (List Nat)
  | 0 => Except.ok []
  | k + 1 =>
    if h : off < ram.length then
      match readLoop ram ((off + 1) % ram.length) k with
      | Except.ok rest => Except.ok (ram[off] :: rest)
      | Except.error e => Except.error e
    else
      Except.error MockPanic.indexOutOfBounds

/-- `I2cMock::write`: a length-1 byte sequence (command only) is discarded and
succeeds; otherwise the first byte XOR `ROW_0_bits` is the starting offset and
the remaining bytes are stored by `writeLoop`.  `bytes[0]` on an empty slice
panics. -/
def I2cMock.write (m : I2cMock) (bytes : List Nat) : Except MockPanic I2cMock :=
  if bytes.length == 1 then
    Except.ok m
  else
    match bytes with
    | [] => Except.error MockPanic.indexOutOfBounds
    | b :: data =>
      match writeLoop m.data_values (Nat.xor b ROW_0_bits) data with
      | Except.ok ram => Except.ok ⟨ram⟩
      | Except.error e => Except.error e

/-- `I2cMock::write_read`: the first byte XOR `ROW_0_bits` is the starting
offset; the buffer of length `bufLen` is filled by `readLoop`.  `bytes[0]` on
an empty slice panics.  The returned pair is (resulting mock state, filled
buffer); the loop never assigns to `data_values`, so the state is returned
as received. -/
def I2cMock.write_read (m : I2cMock) (bytes : List Nat) (bufLen : Nat) :
    Except MockPanic (I2cMock × List Nat) :=
  match bytes with
  | [] => Except.error MockPanic.indexOutOfBounds
  | b :: _ =>
    match readLoop m.data_values (Nat.xor b ROW_0_bits) bufLen with
    | Except.ok buf => Except.ok (m, buf)
    | Except.error e => Except.error e

/-- An `embedded_hal::i2c::Operation`: a read buffer (represented by its
length) or a write byte sequence. -/
inductive Operation where
  | Read (len : Nat)
  | Write (bytes : List Nat)
  deriving DecidableEq, Repr

/-- Whether an operation is a `Read`. -/
def Operation.isRead : Operation → Bool
  | Operation.Read _ => true
  | Operation.Write _ => false

/-- Whether an operation is a `Write`. -/
def Operation.isWrite : Operation → Bool
  | Operation.Read _ => false
  | Operation.Write _ => true

namespace blocking

/-- The blocking `hal::i2c::I2c::transaction` impl: walk the operation slice;
a `Read` at the head hits `todo!()`; a `Write` immediately followed by a
`Read` is routed to `write_read` (consuming both); any other `Write` is
routed to `write`.  The filled read buffers are collected in order. -/
def transaction (m : I2cMock) :
    List Operation → Except MockPanic (I2cMock × List (List Nat))
  | [] => Except.ok (m, [])
  | Operation.Read _ :: _ => Except.error MockPanic.todoUnimplemented
  | Operation.Write wb :: Operation.Read k :: rest =>
    match m.write_read wb k with
    | Except.ok (m', buf) =>
      match transaction m' rest with
      | Except.ok (m2, bufs) => Except.ok (m2, buf :: bufs)
      | Except.error e => Except.error e
    | Except.error e => Except.error e
  | Operation.Write wb :: rest =>
    match m.write wb with
    | Except.ok m' => transaction m' rest
    | Except.error e => Except.error e

end blocking

namespace non_blocking

/-- The non-blocking (async) `hal::i2c::I2c::transaction` impl, whose body is
the same operation walk as the blocking one; the suspension point of the
async fn brackets the whole transaction and does not change the algorithm. -/
def transaction (m : I2cMock) :
    List Operation → Except MockPanic (I2cMock × List (List Nat))
  | [] => Except.ok (m, [])
  | Operation.Read _ :: _ => Except.error MockPanic.todoUnimplemented
  | Operation.Write wb :: Operation.Read k :: rest =>
    match m.write_read wb k with
    | Except.ok (m', buf) =>
      match transaction m' rest with
      | Except.ok (m2, bufs) => Except.ok (m2, buf :: bufs)
      | Except.error e => Except.error e
    | Except.error e => Except.error e
  | Operation.Write wb :: rest =>
    match m.write wb with
    | Except.ok m' => transaction m' rest
    | Except.error e => Except.error e

end non_blocking

/-- Auxiliary scan: does the list contain a `Read` whose immediate predecessor
(`prev` for the head position) is not a `Write`? -/
def hasBareReadFrom (prev : Operation) : List Operation → Bool
  | [] => false
  | op :: rest => (op.isRead && !prev.isWrite) || hasBareReadFrom op rest

/-- Does the operation sequence contain a read not immediately preceded by a
write (a read at the start, or a read following another read)? -/
def hasBareRead : List Operation → Bool
  | [] => false
  | op :: rest => op.isRead || hasBareReadFrom op rest

/-! ### Helper lemmas about `getElem!` on lists -/

lemma getElemBangSetSelf (l : List Nat) (i v : Nat) (h : i < l.length) :
    (l.set i v)[i]! = v := by
  rw [getElem!_pos (l.set i v) i (by simpa using h)]
  exact List.getElem_set_self (by simpa using h)

lemma getElemBangSetOther (l : List Nat) (i j v : Nat) (h : j < l.length) (hne : i ≠ j) :
    (l.set i v)[j]! = l[j]! := by
  rw [getElem!_pos (l.set i v) j (by simpa using h), getElem!_pos l j h]
  exact List.getElem_set_ne hne _

lemma getElemBangConsZero (v : Nat) (l : List Nat) : (v :: l)[0]! = v := by
  simp

lemma getElemBangConsSucc (v : Nat) (l : List Nat) (i : Nat) : (v :: l)[i + 1]! = l[i]! := by
  rcases Nat.lt_or_ge i l.length with h | h
  · rw [getElem!_pos (v :: l) (i + 1) (by simpa using h), getElem!_pos l i h]
    simp
  · rw [getElem!_neg (v :: l) (i + 1) (by simp; omega), getElem!_neg l i (by omega)]

lemma listExtBang (l₁ l₂ : List Nat) (hl : l₁.length = l₂.length)
    (h : ∀ i, i < l₁.length → l₁[i]! = l₂[i]!) : l₁ = l₂ := by
  refine @List.ext_getElem! Nat l₁ l₂ _ hl fun n => ?_
  rcases Nat.lt_or_ge n l₁.length with hn | hn
  · exact h n hn
  · rw [getElem!_neg l₁ n (by omega), getElem!_neg l₂ n (by omega)]

lemma modShift (off x : Nat) : ((off + 1) % 16 + x) % 16 = (off + (x + 1)) % 16 := by
  rw [Nat.mod_add_mod]
  congr 1
  omega

/-! ### Characterization of the two loops -/

/-- Full characterization of `writeLoop` when the starting offset is in
bounds: it succeeds, preserves the RAM length, each payload byte that is the
last one written to its (wrapped) index ends up there, and every index no
payload byte maps to keeps its prior value.  No bound on the payload length
is assumed. -/
lemma writeLoop_spec : ∀ (data ram : List Nat) (off : Nat),
    ram.length = 16 → off < 16 →
    ∃ ram', writeLoop ram off data = Except.ok ram' ∧ ram'.length = 16 ∧
      (∀ i, i < data.length →
        (∀ i', i < i' → i' < data.length → (off + i') % 16 ≠ (off + i) % 16) →
        ram'[(off + i) % 16]! = data[i]!) ∧
      (∀ j, j < 16 → (∀ i, i < data.length → (off + i) % 16 ≠ j) →
        ram'[j]! = ram[j]!)
  | [], ram, off, hlen, _hoff => by
    refine ⟨ram, by simp [writeLoop], hlen, ?_, ?_⟩
    · intro i hi
      simp at hi
    · intro j _ _
      rfl
  | v :: rest, ram, off, hlen, hoff => by
    have hofflen : off < ram.length := by omega
    have hlenset : (ram.set off v).length = 16 := by simp [hlen]
    obtain ⟨ram', heq, hrl, hin, hout⟩ :=
      writeLoop_spec rest (ram.set off v) ((off + 1) % 16) hlenset
        (Nat.mod_lt _ (by omega))
    refine ⟨ram', ?_, hrl, ?_, ?_⟩
    · rw [writeLoop, if_pos hofflen, hlenset]
      exact heq
    · intro i hi hlast
      match i with
      | 0 =>
        have h0 : (off + 0) % 16 = off := by omega
        rw [h0, getElemBangConsZero]
        have hsame : ram'[off]! = (ram.set off v)[off]! := by
          apply hout off hoff
          intro i'' hi''
          have hl := hlast (i'' + 1) (by omega) (by simp at hi ⊢; omega)
          rw [modShift]
          omega
        rw [hsame, getElemBangSetSelf ram off v hofflen]
      | i + 1 =>
        have hcond : ∀ i', i < i' → i' < rest.length →
            ((off + 1) % 16 + i') % 16 ≠ ((off + 1) % 16 + i) % 16 := by
          intro i' h1 h2
          have hl := hlast (i' + 1) (by omega) (by simp; omega)
          rw [modShift, modShift]
          omega
        have := hin i (by simp at hi; omega) hcond
        rw [modShift] at this
        rw [getElemBangConsSucc]
        exact this
    · intro j hj huntouched
      have hj0 : off ≠ j := by
        have := huntouched 0 (by simp)
        omega
      have hsub : ∀ i, i < rest.length → ((off + 1) % 16 + i) % 16 ≠ j := by
        intro i hi
        have := huntouched (i + 1) (by simp; omega)
        rw [modShift]
        omega
      rw [hout j hj hsub, getElemBangSetOther ram off j v (by omega) hj0]

/-- Full characterization of `readLoop` when the starting offset is in
bounds: it succeeds, produces a buffer of the requested length, and position
`i` of the buffer holds `ram[(off + i) % 16]`, for every requested length
(the offset keeps wrapping). -/
lemma readLoop_spec : ∀ (k : Nat) (ram : List Nat) (off : Nat),
    ram.length = 16 → off < 16 →
    ∃ buf, readLoop ram off k = Except.ok buf ∧ buf.length = k ∧
      ∀ i, i < k → buf[i]! = ram[(off + i) % 16]!
  | 0, ram, off, _hlen, _hoff => by
    refine ⟨[], by simp [readLoop], rfl, ?_⟩
    intro i hi
    omega
  | k + 1, ram, off, hlen, hoff => by
    have hofflen : off < ram.length := by omega
    obtain ⟨rest, heq, hrl, hread⟩ :=
      readLoop_spec k ram ((off + 1) % 16) hlen (Nat.mod_lt _ (by omega))
    refine ⟨ram[off] :: rest, ?_, by simp [hrl], ?_⟩
    · rw [readLoop, dif_pos hofflen, hlen, heq]
    · intro i hi
      match i with
      | 0 =>
        have h0 : (off + 0) % 16 = off := by omega
        rw [h0, getElemBangConsZero, getElem!_pos ram off hofflen]
      | i + 1 =>
        have := hread i (by omega)
        rw [modShift] at this
        rw [getElemBangConsSucc]
        exact this

/-! ### Transaction lemmas -/

/-- The blocking and the async transaction walk are the same function. -/
lemma transaction_eq : ∀ (ops : List Operation) (m : I2cMock),
    blocking.transaction m ops = non_blocking.transaction m ops
  | [], _ => rfl
  | Operation.Read _ :: _, _ => rfl
  | Operation.Write wb :: Operation.Read k :: rest, m => by
    simp only [blocking.transaction, non_blocking.transaction]
    cases hwr : m.write_read wb k with
    | error e => rfl
    | ok pr =>
      obtain ⟨m', buf⟩ := pr
      simp only [transaction_eq rest m']
  | Operation.Write wb :: [], m => by
    simp only [blocking.transaction, non_blocking.transaction]
  | Operation.Write wb :: Operation.Write wb2 :: rest, m => by
    simp only [blocking.transaction, non_blocking.transaction]
    cases hw : m.write wb with
    | error e => rfl
    | ok m' => simp only [transaction_eq (Operation.Write wb2 :: rest) m']

/-- Scanning from a `Read` as previous element is the same as scanning with no
previous element: a read at the next position is bare either way. -/
lemma hasBareReadFrom_read (n : Nat) :
    ∀ rest : List Operation, hasBareReadFrom (Operation.Read n) rest = hasBareRead rest
  | [] => rfl
  | op :: rest => by
    simp [hasBareReadFrom, hasBareRead, Operation.isWrite]

/-- A transaction that returns `ok` contains no read that is not immediately
preceded by a write. -/
lemma transaction_ok_no_bare_read : ∀ (ops : List Operation) (m : I2cMock)
    (r : I2cMock × List (List Nat)),
    blocking.transaction m ops = Except.ok r → hasBareRead ops = false
  | [], _, _, _ => rfl
  | Operation.Read _ :: _, m, r, h => by
    simp only [blocking.transaction] at h
    cases h
  | Operation.Write wb :: Operation.Read k :: rest, m, r, h => by
    simp only [blocking.transaction] at h
    cases hwr : m.write_read wb k with
    | error e =>
      rw [hwr] at h
      cases h
    | ok pr =>
      obtain ⟨m', buf⟩ := pr
      rw [hwr] at h
      simp only at h
      cases htr : blocking.transaction m' rest with
      | error e =>
        rw [htr] at h
        cases h
      | ok r2 =>
        have hr := transaction_ok_no_bare_read rest m' r2 htr
        simp [hasBareRead, hasBareReadFrom, Operation.isRead, Operation.isWrite,
          hasBareReadFrom_read]
        exact hr
  | Operation.Write wb :: [], m, r, h => by
    simp [hasBareRead, hasBareReadFrom, Operation.isRead]
  | Operation.Write wb :: Operation.Write wb2 :: rest, m, r, h => by
    simp only [blocking.transaction] at h
    cases hw : m.write wb with
    | error e =>
      rw [hw] at h
      cases h
    | ok m' =>
      rw [hw] at h
      simp only at h
      have hr := transaction_ok_no_bare_read (Operation.Write wb2 :: rest) m' r h
      simp [hasBareRead, hasBareReadFrom, Operation.isRead, Operation.isWrite] at hr ⊢
      exact hr

/-- Decidable equality on `Except`, for evaluating results on concrete
inputs. -/
instance exceptDecEq {ε α : Type} [DecidableEq ε] [DecidableEq α] :
    DecidableEq (Except ε α)
  | Except.ok a, Except.ok b =>
    if h : a = b then isTrue (by rw [h])
    else isFalse (by intro hh; cases hh; exact h rfl)
  | Except.ok _, Except.error _ => isFalse (by intro hh; cases hh)
  | Except.error _, Except.ok _ => isFalse (by intro hh; cases hh)
  | Except.error e, Except.error f =>
    if h : e = f then isTrue (by rw [h])
    else isFalse (by intro hh; cases hh; exact h rfl)

/-! ### The unit tests of `i2c_mock.rs`, replayed on the embedding -/

lemma rust_test_write : I2cMock.new.write [0, 1, 1] =
    Except.ok ⟨[1, 1, 0, 0, 0, 0, 0, 0, 0, 0, 0, 0, 0, 0, 0, 0]⟩ := rfl

lemma rust_test_write_with_offset : I2cMock.new.write [4, 1, 1] =
    Except.ok ⟨[0, 0, 0, 0, 1, 1, 0, 0, 0, 0, 0, 0, 0, 0, 0, 0]⟩ := rfl

lemma rust_test_write_with_wraparound :
    I2cMock.new.write (0 :: (List.replicate 16 1 ++ [2, 2])) =
    Except.ok ⟨[2, 2, 1, 1, 1, 1, 1, 1, 1, 1, 1, 1, 1, 1, 1, 1]⟩ := rfl

lemma rust_test_write_read_wraparound :
    (I2cMock.mk [0, 0, 1, 1, 0, 0, 0, 0, 0, 0, 0, 0, 0, 0, 0, 0]).write_read [0] 20 =
    Except.ok (I2cMock.mk [0, 0, 1, 1, 0, 0, 0, 0, 0, 0, 0, 0, 0, 0, 0, 0],
      [0, 0, 1, 1, 0, 0, 0, 0, 0, 0, 0, 0, 0, 0, 0, 0, 0, 0, 1, 1]) := rfl

lemma rust_test_write_read_wraparound_and_offset :
    (I2cMock.mk [1, 1, 0, 0, 0, 0, 0, 0, 0, 0, 0, 0, 0, 0, 0, 0]).write_read [4] 16 =
    Except.ok (I2cMock.mk [1, 1, 0, 0, 0, 0, 0, 0, 0, 0, 0, 0, 0, 0, 0, 0],
      [0, 0, 0, 0, 0, 0, 0, 0, 0, 0, 0, 0, 1, 1, 0, 0]) := rfl

lemma transaction_write_then_read_pair :
    blocking.transaction I2cMock.new
      [Operation.Write [0, 5, 6], Operation.Write [0], Operation.Read 2] =
    Except.ok (⟨[5, 6, 0, 0, 0, 0, 0, 0, 0, 0, 0, 0, 0, 0, 0, 0]⟩, [[5, 6]]) := by
  decide

/-! ### The claims -/

/-- C1: for every offset `o < ROWS_SIZE` and payload `p` with
`p.length ≤ ROWS_SIZE`, after `write` of the command byte `base ||| o`
followed by `p`, `DisplayRam[(o+i) % ROWS_SIZE] = p[i]` for every `i`, and
every index not of that form keeps its prior value. -/
theorem write_locality (m : I2cMock) (o : Nat) (p : List Nat)
    (hlen : m.data_values.length = ROWS_SIZE) (ho : o < ROWS_SIZE)
    (hk : p.length ≤ ROWS_SIZE) :
    ∃ m', m.write ((ROW_0_bits ||| o) :: p) = Except.ok m' ∧
      m'.data_values.length = ROWS_SIZE ∧
      (∀ i, i < p.length → m'.data_values[(o + i) % ROWS_SIZE]! = p[i]!) ∧
      (∀ j, j < ROWS_SIZE → (∀ i, i < p.length → (o + i) % ROWS_SIZE ≠ j) →
        m'.data_values[j]! = m.data_values[j]!) := by
  simp only [ROWS_SIZE] at hlen ho hk ⊢
  have hxor : Nat.xor (ROW_0_bits ||| o) ROW_0_bits = o := by
    simp only [ROW_0_bits, Nat.zero_or]
    exact Nat.xor_zero o
  cases p with
  | nil =>
    refine ⟨m, rfl, hlen, ?_, ?_⟩
    · intro i hi
      simp at hi
    · intro j _ _
      rfl
  | cons v rest =>
    obtain ⟨ram', heq, hrl, hin, hout⟩ :=
      writeLoop_spec (v :: rest) m.data_values o hlen ho
    refine ⟨⟨ram'⟩, ?_, hrl, ?_, ?_⟩
    · simp [I2cMock.write, hxor, heq]
    · intro i hi
      exact hin i hi (by intro i' h1 h2; omega)
    · intro j hj hunt
      exact hout j hj hunt

theorem write_locality_witness :
    (I2cMock.new.data_values.length = ROWS_SIZE ∧ 4 < ROWS_SIZE ∧
      ([1, 1] : List Nat).length ≤ ROWS_SIZE) ∧
    (∃ m', I2cMock.new.write ((ROW_0_bits ||| 4) :: [1, 1]) = Except.ok m' ∧
      m'.data_values.length = ROWS_SIZE ∧
      (∀ i, i < ([1, 1] : List Nat).length →
        m'.data_values[(4 + i) % ROWS_SIZE]! = ([1, 1] : List Nat)[i]!) ∧
      (∀ j, j < ROWS_SIZE →
        (∀ i, i < ([1, 1] : List Nat).length → (4 + i) % ROWS_SIZE ≠ j) →
        m'.data_values[j]! = I2cMock.new.data_values[j]!)) :=
  ⟨⟨by decide, by decide, by decide⟩,
    write_locality I2cMock.new 4 [1, 1] (by decide) (by decide) (by decide)⟩

/-- C2: for every offset `o < ROWS_SIZE`, every prior RAM state and every
buffer length `k`, `write_read` with command `base ||| o` fills position `i`
of the buffer with `DisplayRam[(o+i) % ROWS_SIZE]`, and the RAM state is
returned unchanged. -/
theorem read_locality (m : I2cMock) (o : Nat) (k : Nat)
    (hlen : m.data_values.length = ROWS_SIZE) (ho : o < ROWS_SIZE) :
    ∃ buf, m.write_read [ROW_0_bits ||| o] k = Except.ok (m, buf) ∧
      buf.length = k ∧
      ∀ i, i < k → buf[i]! = m.data_values[(o + i) % ROWS_SIZE]! := by
  simp only [ROWS_SIZE] at hlen ho ⊢
  have hxor : Nat.xor (ROW_0_bits ||| o) ROW_0_bits = o := by
    simp only [ROW_0_bits, Nat.zero_or]
    exact Nat.xor_zero o
  obtain ⟨buf, heq, hbl, hb⟩ := readLoop_spec k m.data_values o hlen ho
  refine ⟨buf, ?_, hbl, hb⟩
  simp [I2cMock.write_read, hxor, heq]

theorem read_locality_witness :
    ((I2cMock.mk [1, 1, 0, 0, 0, 0, 0, 0, 0, 0, 0, 0, 0, 0, 0, 0]).data_values.length
        = ROWS_SIZE ∧ 2 < ROWS_SIZE) ∧
    (∃ buf, (I2cMock.mk [1, 1, 0, 0, 0, 0, 0, 0, 0, 0, 0, 0, 0, 0, 0, 0]).write_read
        [ROW_0_bits ||| 2] 4 =
      Except.ok (I2cMock.mk [1, 1, 0, 0, 0, 0, 0, 0, 0, 0, 0, 0, 0, 0, 0, 0], buf) ∧
      buf.length = 4 ∧
      ∀ i, i < 4 → buf[i]! =
        (I2cMock.mk [1, 1, 0, 0, 0, 0, 0, 0, 0, 0, 0, 0, 0, 0, 0, 0]).data_values[(2 + i) % ROWS_SIZE]!) :=
  ⟨⟨by decide, by decide⟩,
    read_locality (I2cMock.mk [1, 1, 0, 0, 0, 0, 0, 0, 0, 0, 0, 0, 0, 0, 0, 0]) 2 4
      (by decide) (by decide)⟩

/-- C3: for lengths exceeding `ROWS_SIZE - o` (in particular beyond
`2 × ROWS_SIZE`), both paths wrap past the end of `DisplayRam` and resume at
index 0: the write path succeeds for a payload of any length, each payload
byte lands at `(o+i) % ROWS_SIZE` (a byte that is re-overwritten by a later
wrapped byte holds the later byte, expressed by the last-write side
condition), and the read path fills every buffer position `i` from
`DisplayRam[(o+i) % ROWS_SIZE]` instead of stopping at the RAM boundary. -/
theorem wraparound_write_read (m : I2cMock) (o : Nat) (p : List Nat) (k : Nat)
    (hlen : m.data_values.length = ROWS_SIZE) (ho : o < ROWS_SIZE)
    (_hp : ROWS_SIZE - o < p.length) (_hk : ROWS_SIZE - o < k) :
    (∃ m', m.write ((ROW_0_bits ||| o) :: p) = Except.ok m' ∧
      m'.data_values.length = ROWS_SIZE ∧
      (∀ i, i < p.length →
        (∀ i', i < i' → i' < p.length →
          (o + i') % ROWS_SIZE ≠ (o + i) % ROWS_SIZE) →
        m'.data_values[(o + i) % ROWS_SIZE]! = p[i]!) ∧
      (∀ j, j < ROWS_SIZE → (∀ i, i < p.length → (o + i) % ROWS_SIZE ≠ j) →
        m'.data_values[j]! = m.data_values[j]!)) ∧
    (∃ buf, m.write_read [ROW_0_bits ||| o] k = Except.ok (m, buf) ∧
      buf.length = k ∧
      ∀ i, i < k → buf[i]! = m.data_values[(o + i) % ROWS_SIZE]!) := by
  simp only [ROWS_SIZE] at hlen ho ⊢
  have hxor : Nat.xor (ROW_0_bits ||| o) ROW_0_bits = o := by
    simp only [ROW_0_bits, Nat.zero_or]
    exact Nat.xor_zero o
  constructor
  · cases p with
    | nil =>
      refine ⟨m, rfl, hlen, ?_, ?_⟩
      · intro i hi
        simp at hi
      · intro j _ _
        rfl
    | cons v rest =>
      obtain ⟨ram', heq, hrl, hin, hout⟩ :=
        writeLoop_spec (v :: rest) m.data_values o hlen ho
      refine ⟨⟨ram'⟩, ?_, hrl, hin, hout⟩
      simp [I2cMock.write, hxor, heq]
  · obtain ⟨buf, heq, hbl, hb⟩ := readLoop_spec k m.data_values o hlen ho
    refine ⟨buf, ?_, hbl, hb⟩
    simp [I2cMock.write_read, hxor, heq]

theorem wraparound_write_read_witness :
    (I2cMock.new.data_values.length = ROWS_SIZE ∧ 4 < ROWS_SIZE ∧
      ROWS_SIZE - 4 < (List.replicate 33 7).length ∧ ROWS_SIZE - 4 < 33) ∧
    ((∃ m', I2cMock.new.write ((ROW_0_bits ||| 4) :: List.replicate 33 7) =
        Except.ok m' ∧
      m'.data_values.length = ROWS_SIZE ∧
      (∀ i, i < (List.replicate 33 7).length →
        (∀ i', i < i' → i' < (List.replicate 33 7).length →
          (4 + i') % ROWS_SIZE ≠ (4 + i) % ROWS_SIZE) →
        m'.data_values[(4 + i) % ROWS_SIZE]! = (List.replicate 33 7)[i]!) ∧
      (∀ j, j < ROWS_SIZE →
        (∀ i, i < (List.replicate 33 7).length → (4 + i) % ROWS_SIZE ≠ j) →
        m'.data_values[j]! = I2cMock.new.data_values[j]!)) ∧
    (∃ buf, I2cMock.new.write_read [ROW_0_bits ||| 4] 33 =
        Except.ok (I2cMock.new, buf) ∧
      buf.length = 33 ∧
      ∀ i, i < 33 → buf[i]! = I2cMock.new.data_values[(4 + i) % ROWS_SIZE]!)) :=
  ⟨⟨by decide, by decide, by decide, by decide⟩,
    wraparound_write_read I2cMock.new 4 (List.replicate 33 7) 33
      (by decide) (by decide) (by decide) (by decide)⟩

/-- C4 counterexample: the command byte 16 decodes (via XOR with the base
command, value 0) to offset 16 `= ROWS_SIZE`.  The first RAM access of
`write` with a non-empty payload uses this offset unreduced, so it indexes
out of bounds and the call panics, contradicting the claim that every
access (including the first) is taken modulo `ROWS_SIZE` and that the
operations complete without panicking. -/
theorem offset_oob_panics_cex :
    I2cMock.new.write [16, 1] = Except.error MockPanic.indexOutOfBounds := rfl

/-- C4 (amended): for every command byte whose decoded offset is *less than*
`ROWS_SIZE`, all RAM accesses of `write` (any payload) and of `write_read`
(any buffer length) stay in bounds — every subsequent offset is reduced
modulo `ROWS_SIZE` at each step — and both operations complete without
panicking.  (When the decoded offset is `≥ ROWS_SIZE`, the first access
panics, as `offset_oob_panics_cex` shows.) -/
theorem in_range_offset_no_panic (m : I2cMock) (c : Nat) (p cs : List Nat)
    (k : Nat) (hlen : m.data_values.length = ROWS_SIZE)
    (hc : Nat.xor c ROW_0_bits < ROWS_SIZE) :
    (∃ m', m.write (c :: p) = Except.ok m') ∧
    (∃ buf, m.write_read (c :: cs) k = Except.ok (m, buf)) := by
  simp only [ROWS_SIZE] at hlen hc
  constructor
  · cases p with
    | nil => exact ⟨m, rfl⟩
    | cons v rest =>
      obtain ⟨ram', heq, -, -, -⟩ :=
        writeLoop_spec (v :: rest) m.data_values (Nat.xor c ROW_0_bits) hlen hc
      refine ⟨⟨ram'⟩, ?_⟩
      simp [I2cMock.write, heq]
  · obtain ⟨buf, heq, -, -⟩ :=
      readLoop_spec k m.data_values (Nat.xor c ROW_0_bits) hlen hc
    refine ⟨buf, ?_⟩
    simp [I2cMock.write_read, heq]

theorem in_range_offset_no_panic_witness :
    (I2cMock.new.data_values.length = ROWS_SIZE ∧
      Nat.xor 5 ROW_0_bits < ROWS_SIZE) ∧
    ((∃ m', I2cMock.new.write (5 :: [1, 2]) = Except.ok m') ∧
     (∃ buf, I2cMock.new.write_read (5 :: []) 3 = Except.ok (I2cMock.new, buf))) :=
  ⟨⟨by decide, by decide⟩,
    in_range_offset_no_panic I2cMock.new 5 [1, 2] [] 3 (by decide) (by decide)⟩

/-- C5: writing payload `p` (of length `≤ ROWS_SIZE`) at offset `o`, then
reading `p.length` bytes back from offset `o`, reproduces exactly `p`. -/
theorem write_read_roundtrip (m : I2cMock) (o : Nat) (p : List Nat)
    (hlen : m.data_values.length = ROWS_SIZE) (ho : o < ROWS_SIZE)
    (hk : p.length ≤ ROWS_SIZE) :
    ∃ m', m.write ((ROW_0_bits ||| o) :: p) = Except.ok m' ∧
      m'.write_read [ROW_0_bits ||| o] p.length = Except.ok (m', p) := by
  simp only [ROWS_SIZE] at hlen ho hk
  have hxor : Nat.xor (ROW_0_bits ||| o) ROW_0_bits = o := by
    simp only [ROW_0_bits, Nat.zero_or]
    exact Nat.xor_zero o
  cases p with
  | nil =>
    refine ⟨m, rfl, ?_⟩
    simp [I2cMock.write_read, readLoop]
  | cons v rest =>
    obtain ⟨ram', heq, hrl, hin, -⟩ :=
      writeLoop_spec (v :: rest) m.data_values o hlen ho
    obtain ⟨buf, hreq, hbl, hb⟩ := readLoop_spec (v :: rest).length ram' o hrl ho
    have hbuf : buf = v :: rest := by
      apply listExtBang buf (v :: rest) (by rw [hbl])
      intro i hi
      rw [hbl] at hi
      rw [hb i hi, hin i hi (by intro i' h1 h2; omega)]
    refine ⟨⟨ram'⟩, ?_, ?_⟩
    · simp [I2cMock.write, hxor, heq]
    · rw [hbuf] at hreq
      simp only [List.length_cons] at hreq
      simp [I2cMock.write_read, hxor, hreq]

theorem write_read_roundtrip_witness :
    (I2cMock.new.data_values.length = ROWS_SIZE ∧ 14 < ROWS_SIZE ∧
      ([3, 4, 5] : List Nat).length ≤ ROWS_SIZE) ∧
    (∃ m', I2cMock.new.write ((ROW_0_bits ||| 14) :: [3, 4, 5]) = Except.ok m' ∧
      m'.write_read [ROW_0_bits ||| 14] ([3, 4, 5] : List Nat).length =
        Except.ok (m', [3, 4, 5])) :=
  ⟨⟨by decide, by decide, by decide⟩,
    write_read_roundtrip I2cMock.new 14 [3, 4, 5] (by decide) (by decide) (by decide)⟩

/-- C6: the blocking and the asynchronous transaction implementations have
identical semantics on every starting state and operation sequence: same
resulting RAM state, same filled read buffers, same result. -/
theorem blocking_nonblocking_equiv (m : I2cMock) (ops : List Operation) :
    blocking.transaction m ops = non_blocking.transaction m ops :=
  transaction_eq ops m

/-- C7: a one-byte (command-only) `write` succeeds and leaves the display RAM
unchanged, for every command byte and every prior state. -/
theorem command_only_write_noop (m : I2cMock) (c : Nat) :
    m.write [c] = Except.ok m := rfl

/-- C8: an operation sequence containing a read not immediately preceded by a
write (a read at the start, or a read following another read) makes the
transaction fail fatally — the embedding returns an error (a modelled panic)
on both the blocking and the async path — rather than return success. -/
theorem bare_read_fails (ops : List Operation) (h : hasBareRead ops = true)
    (m : I2cMock) :
    (∃ e, blocking.transaction m ops = Except.error e) ∧
    (∃ e, non_blocking.transaction m ops = Except.error e) := by
  constructor
  · cases htr : blocking.transaction m ops with
    | error e => exact ⟨e, rfl⟩
    | ok r =>
      rw [transaction_ok_no_bare_read ops m r htr] at h
      cases h
  · cases htr : non_blocking.transaction m ops with
    | error e => exact ⟨e, rfl⟩
    | ok r =>
      rw [transaction_ok_no_bare_read ops m r (by rw [transaction_eq]; exact htr)] at h
      cases h

theorem bare_read_fails_witness :
    hasBareRead [Operation.Read 1] = true ∧
    ((∃ e, blocking.transaction I2cMock.new [Operation.Read 1] = Except.error e) ∧
     (∃ e, non_blocking.transaction I2cMock.new [Operation.Read 1] = Except.error e)) :=
  ⟨by decide, bare_read_fails [Operation.Read 1] (by decide) I2cMock.new⟩

/-- C9 counterexample: `write` of the empty byte sequence does not return an
error value — it panics (the slice index `bytes[0]` is out of bounds), which
the embedding renders as `Except.error MockPanic.indexOutOfBounds`.  The
claim that the code returns an explicit error instead of panicking is
therefore false. -/
theorem empty_write_panics_cex :
    I2cMock.new.write [] = Except.error MockPanic.indexOutOfBounds := rfl

/-- C9 (amended): `write` of the empty byte sequence panics with an
out-of-bounds index on `bytes[0]` (it does not return an `Err` value); no
byte of the display RAM has been modified when the panic occurs. -/
theorem empty_write_panics (m : I2cMock) :
    m.write [] = Except.error MockPanic.indexOutOfBounds := rfl

/-- C10: `write_read` inspects only the first byte of its command sequence:
with the same output-buffer length, any trailing command bytes are ignored
and the result (state and filled buffer) is that of the one-byte command. -/
theorem write_read_first_byte_only (m : I2cMock) (b : Nat) (cs : List Nat)
    (k : Nat) :
    m.write_read (b :: cs) k = m.write_read [b] k := rfl

end HT16K33
